import Mathlib

/-
Verification of the dolphin block-streaming and sequential ministack core.

Shallow embedding conventions:
- a floating-point sample is `Option Rat`: `none` models NaN, `some q` a finite
  value; exact rational arithmetic stands in for IEEE arithmetic;
- numpy reductions along axis 0 act independently on each pixel column, so a
  tile is embedded as the list of its per-pixel columns;
- real square roots (np.nanstd) live in `Real`; everywhere else the embedding
  is computable.
-/

namespace Dolphin

/-- A floating-point sample: `none` models NaN, `some q` the finite value q. -/
abbrev Sample := Option ℚ

/-! ### ps.py, per-pixel reducer (calc_ps_block, lines 153-226) -/

/-- Number of valid (non-NaN) samples in one pixel column, embedding
np.count_nonzero of the non-NaN entries along axis 0 (ps.py line 216). -/
def validCount (xs : List Sample) : ℕ := (xs.filterMap id).length

/-- Sum of the valid samples of one pixel column. -/
def nansum (xs : List Sample) : ℚ := (xs.filterMap id).sum

/-- np.nanmean along the layer axis (ps.py line 214).  For an all-NaN column
numpy yields NaN, which the pipeline later replaces by 0 via np.nan_to_num
(line 221); rational division by zero yields 0 directly, so the two agree. -/
def nanmean (xs : List Sample) : ℚ := nansum xs / validCount xs

/-- Square of np.nanstd along the layer axis (ps.py line 215): population
variance (ddof = 0) of the valid samples. -/
def nanvar (xs : List Sample) : ℚ :=
  ((xs.filterMap id).map (fun x => (x - nanmean xs) ^ 2)).sum / validCount xs

/-- np.nanstd along the layer axis (ps.py line 215). -/
noncomputable def nanstd (xs : List Sample) : ℝ := Real.sqrt ((nanvar xs : ℚ) : ℝ)

/-- amp_disp = std_dev / mean (ps.py line 217).  When the mean is 0 numpy
produces NaN or an infinity, which np.nan_to_num (line 222) replaces by 0;
real division by zero yields 0 directly, so the two agree. -/
noncomputable def ampDispRaw (xs : List Sample) : ℝ :=
  nanstd xs / ((nanmean xs : ℚ) : ℝ)

/-- The dispersion output of calc_ps_block for one pixel: columns with fewer
than min_count valid samples are set to NaN (ps.py line 219) and then
np.nan_to_num maps that NaN to 0 (line 222). -/
noncomputable def ampDisp (xs : List Sample) (minCount : ℕ) : ℝ :=
  if validCount xs < minCount then 0 else ampDispRaw xs

/-- The mean output of calc_ps_block for one pixel after np.nan_to_num
(ps.py line 221). -/
def meanOut (xs : List Sample) : ℚ := nanmean xs

/-- The ps classification for one pixel (ps.py lines 224-225):
ps = amp_disp < threshold, then pixels with amp_disp == 0 are set False. -/
def psOut (xs : List Sample) (minCount : ℕ) (threshold : ℚ) : Prop :=
  ampDisp xs minCount < ((threshold : ℚ) : ℝ) ∧ ampDisp xs minCount ≠ 0

/-- A tile of magnitude data handed to calc_ps_block: the complex-dtype flag
(np.iscomplexobj inspects the dtype, not the values) plus the per-pixel
columns along the layer axis. -/
structure MagBlock where
  isComplexObj : Bool
  pixels : List (List Sample)

/-- The triple returned by calc_ps_block: per-pixel mean, amplitude
dispersion, and boolean classification. -/
structure PsBlockResult where
  mean : List ℚ
  ampDispersion : List ℝ
  ps : List Prop

/-- calc_ps_block (ps.py lines 153-226): raise ValueError on a complex-valued
stack (lines 204-205), otherwise return the per-pixel
(mean, dispersion, classification) triple. -/
noncomputable def calc_ps_block (block : MagBlock) (threshold : ℚ) (minCount : ℕ) :
    Except String PsBlockResult :=
  if block.isComplexObj then
    Except.error ("The input stack_mag must be real-valued.")
  else
    Except.ok
      { mean := block.pixels.map meanOut
        ampDispersion := block.pixels.map (fun xs => ampDisp xs minCount)
        ps := block.pixels.map (fun xs => psOut xs minCount threshold) }

/-- NODATA_VALUES.ps = 255 (ps.py line 24), the nodata marker of the uint8
PS output file. -/
def NODATA_VALUES_ps : ℕ := 255

/-- The stored uint8 PS value of one pixel in create_ps (ps.py lines 127-130):
the boolean classification cast to 0 or 1, after which every pixel whose
dispersion equals 0 is overwritten with NODATA_VALUES.ps. -/
noncomputable def psStored (ampDispersion : ℝ) (ps : Prop) : ℕ :=
  open Classical in
  if ampDispersion = 0 then NODATA_VALUES_ps else if ps then 1 else 0

/-! ### io.py, block planner (get_max_block_shape and _increment_until_max,
lines 780-871) -/

/-- Estimated tile memory in bytes: nstack * rows * cols * bytes_per_pixel,
the quantity the planner divides into max_bytes (io.py lines 851-853). -/
def memBytes (nstack bpp : ℕ) (s : ℕ × ℕ) : ℕ := nstack * (s.1 * s.2) * bpp

/-- The chunk clipping of get_max_block_shape (io.py lines 806-807): raise the
native chunk to at least 16 per axis, then clip to the raster size. -/
def clipChunk (rawChunk : ℕ × ℕ) (ysize xsize : ℕ) : ℕ × ℕ :=
  (min (max 16 rawChunk.1) ysize, min (max 16 rawChunk.2) xsize)

/-- The while loop of _increment_until_max (io.py lines 858-870), fuel-indexed:
while chunks_per_block > 1 and the block differs from the full shape, grow the
axis selected by idx % 2 to the next chunk multiple (clipped at the shape) and
advance that axis chunk counter.  nc tracks num_chunks, cur tracks
cur_block_shape. -/
def incGo (maxBytes : ℚ) (cs shape : ℕ × ℕ) (nstack bpp : ℕ) :
    ℕ → ℕ × ℕ → ℕ × ℕ → ℕ → ℕ × ℕ
  | 0, _, cur, _ => cur
  | fuel + 1, nc, cur, idx =>
    if 1 < maxBytes / ((memBytes nstack bpp cur : ℕ) : ℚ) ∧ cur ≠ shape then
      if idx % 2 = 1 then
        incGo maxBytes cs shape nstack bpp fuel (nc.1, nc.2 + 1)
          (cur.1, min (nc.2 * cs.2) shape.2) (idx + 1)
      else
        incGo maxBytes cs shape nstack bpp fuel (nc.1 + 1, nc.2)
          (min (nc.1 * cs.1) shape.1, cur.2) (idx + 1)
    else cur

/-- _increment_until_max (io.py lines 840-871).  The fuel bound is generous:
the loop saturates both axes at the raster shape well within it. -/
def incrementUntilMax (maxBytes : ℚ) (cs shape : ℕ × ℕ) (nstack bpp : ℕ) : ℕ × ℕ :=
  incGo maxBytes cs shape nstack bpp (2 * (shape.1 + shape.2) + 4) (1, 1) cs 1

/-- get_max_block_shape (io.py lines 780-819): clip the native chunk, then run
_increment_until_max against the memory budget.  rawChunk and the result are
(rows, cols); shape is (ysize, xsize). -/
def get_max_block_shape (rawChunk : ℕ × ℕ) (ysize xsize nstack bpp : ℕ)
    (maxBytes : ℚ) : ℕ × ℕ :=
  incrementUntilMax maxBytes (clipChunk rawChunk ysize xsize) (ysize, xsize) nstack bpp

/-! ### io.py, EagerLoader (lines 705-777) -/

/-- The nodata value the loader uses (io.py lines 735-738): the raster
metadata nodata when present, NaN otherwise. -/
def loaderNodata (fileNodata : Option Sample) : Sample := fileNodata.getD none

/-- The per-sample nodata test of iter_blocks (io.py lines 768-771):
np.isnan when the nodata value is NaN, equality with the nodata value
otherwise (NaN compares unequal to every number, as Option equality does). -/
def sampleIsNodata (nodata : Sample) (x : Sample) : Bool :=
  match nodata with
  | none => x.isNone
  | some v => x == some v

/-- Stage 1 of the skip policy (io.py lines 750-758): with skip_empty and a
nodata mask supplied, a tile whose region is entirely masked invalid is never
queued for reading.  maskAll t embeds nodata_mask over the tile being all
True. -/
def queuedSlices {T : Type} (slices : List T) (skipEmpty : Bool)
    (maskAll : Option (T → Bool)) : List T :=
  slices.filter (fun t =>
    match maskAll with
    | some m => ! (skipEmpty && m t)
    | none => true)

/-- Modelled from the spec: the module dolphin._background (BackgroundReader
and its bounded queue) is not part of the sources; per the spec the reader
yields tiles strictly in enqueue (FIFO) order, so draining the queue returns
the queued tiles in their original order, embedded as the identity. -/
def fifoDrain {T : Type} (queued : List T) : List T := queued

/-- EagerLoader.iter_blocks (io.py lines 745-777): queue reads for every tile
that survives stage 1, drain in FIFO order, and drop any loaded block that is
entirely nodata (stage 2, lines 767-774) before yielding.  read t gives the
samples loaded for tile t. -/
def iterBlocks {T : Type} (slices : List T) (skipEmpty : Bool)
    (maskAll : Option (T → Bool)) (fileNodata : Option Sample)
    (read : T → List Sample) : List (T × List Sample) :=
  (fifoDrain (queuedSlices slices skipEmpty maskAll)).filterMap (fun t =>
    let block := read t
    if block.all (fun x => sampleIsNodata (loaderNodata fileNodata) x) then none
    else some (t, block))

/-! ### workflows/sequential.py (run_wrapped_phase_sequential, lines 32-157) -/

/-- A Python exception surfaced by the sequential run. -/
inductive PyError where
  | valueError (msg : String)
  | indexError
deriving DecidableEq

/-- Python range(0, stop, step) as used for ministack_starts (sequential.py
line 68): step 0 raises ValueError; a negative step with stop at least 0
yields the empty range; a positive step yields 0, step, 2*step, ... below
stop, which has ceil(stop / step) elements. -/
def ministackStarts (stop : ℕ) (step : ℤ) : Except PyError (List ℕ) :=
  if step = 0 then Except.error (PyError.valueError ("range arg 3 must not be zero"))
  else if step < 0 then Except.ok []
  else Except.ok ((List.range ((stop + step.toNat - 1) / step.toNat)).map
    (fun i => i * step.toNat))

/-- The result of the opaque per-batch routine run_wrapped_phase_single:
per-epoch output files, exactly one compressed SLC, and one
temporal-coherence file. -/
structure SingleResult (α : Type) where
  outputFiles : List α
  compSlc : α
  tcorr : α

/-- One record of the ministack loop: the raw files of the batch, its
effective input (accumulated compressed SLCs ++ raw files, sequential.py
line 85), and the per-batch result. -/
structure BatchRecord (α : Type) where
  rawFiles : List α
  effInput : List α
  result : SingleResult α

/-- The ministack loop of run_wrapped_phase_sequential (sequential.py lines
69-119): for each start index, slice the next ministack_size files
(file_list_all[idx : idx + m]), prepend the accumulated compressed SLC list,
run the per-batch routine, and append its compressed SLC to the
accumulator. -/
def seqLoop {α : Type} (single : List α → SingleResult α) (files : List α)
    (m : ℕ) : List ℕ → List α → List (BatchRecord α)
  | [], _ => []
  | s :: rest, comps =>
    let raw := (files.drop s).take m
    let eff := comps ++ raw
    let r := single eff
    ⟨raw, eff, r⟩ :: seqLoop single files m rest (comps ++ [r.compSlc])

/-- gdal_calc with calc numpy.nanmean(A, axis=0) (sequential.py lines
130-140): per-pixel mean over the stacked rasters ignoring NaN samples; a
pixel with no valid sample stays NaN.  A raster is embedded as its list of
pixel samples; the output has the length of the first input raster. -/
def gdal_calc_nanmean (rasters : List (List Sample)) : List Sample :=
  (List.range (rasters.headD []).length).map (fun j =>
    let col := rasters.map (fun r => r.getD j none)
    if validCount col = 0 then none else some (nanmean col))

/-- The final temporal-coherence step (sequential.py lines 125-142): with more
than one per-batch coherence file, call the gdal_calc average; otherwise
rename the sole file, where indexing an empty file list raises IndexError. -/
def finalTcorr {α : Type} (average : List α → α) (tcorrFiles : List α) :
    Except PyError α :=
  if 1 < tcorrFiles.length then Except.ok (average tcorrFiles)
  else
    match tcorrFiles with
    | [] => Except.error PyError.indexError
    | t :: _ => Except.ok t

/-- run_wrapped_phase_sequential (sequential.py lines 32-157), with the opaque
collaborators as parameters: single is run_wrapped_phase_single and average is
the gdal_calc nanmean invocation (lines 128-140).  Raised exceptions propagate
as Except.error.  The final renames into the top-level folder (lines 144-155)
keep list contents and order, so they are embedded as the identity.  Returns
(per-epoch outputs flattened in batch order, compressed SLCs in batch order,
final temporal-coherence raster). -/
def run_wrapped_phase_sequential {α : Type} (single : List α → SingleResult α)
    (average : List α → α) (files : List α) (ministackSize : ℤ) :
    Except PyError (List α × List α × α) :=
  match ministackStarts files.length ministackSize with
  | Except.error e => Except.error e
  | Except.ok starts =>
    let batches := seqLoop single files ministackSize.toNat starts []
    match finalTcorr average (batches.map (fun b => b.result.tcorr)) with
    | Except.error e => Except.error e
    | Except.ok outTcorr =>
      Except.ok ((batches.map (fun b => b.result.outputFiles)).flatten,
        batches.map (fun b => b.result.compSlc), outTcorr)

/-! ### Theorems: per-pixel reducer claims (C5, C6, C10) -/

/-- C5: in calc_ps_block, every pixel column with fewer than min_count valid
(non-NaN) samples has its dispersion output forced to the invalid value 0
regardless of the numerically computed dispersion; and a pixel whose
dispersion equals exactly 0 is never classified positive, so a
classified-positive pixel always has 0 < dispersion < threshold and at least
min_count valid samples (for magnitude data: nonnegative samples). -/
theorem calc_ps_block_min_count_policy (xs : List Sample) (minCount : ℕ)
    (threshold : ℚ) (hpos : ∀ q ∈ xs.filterMap id, (0 : ℚ) ≤ q) :
    (validCount xs < minCount → ampDisp xs minCount = 0) ∧
    (psOut xs minCount threshold →
      0 < ampDisp xs minCount ∧
      ampDisp xs minCount < ((threshold : ℚ) : ℝ) ∧
      minCount ≤ validCount xs) := by
  constructor
  · intro h
    simp [ampDisp, h]
  · rintro ⟨hlt, hne⟩
    have hcount : ¬ validCount xs < minCount := by
      intro h
      exact hne (by simp [ampDisp, h])
    have hval : ampDisp xs minCount = ampDispRaw xs := by
      simp [ampDisp, hcount]
    have hmean : (0 : ℚ) ≤ nanmean xs := by
      have hsum : (0 : ℚ) ≤ nansum xs := List.sum_nonneg hpos
      exact div_nonneg hsum (Nat.cast_nonneg _)
    have hraw : (0 : ℝ) ≤ ampDispRaw xs := by
      apply div_nonneg (Real.sqrt_nonneg _)
      exact_mod_cast hmean
    refine ⟨?_, hlt, Nat.le_of_not_lt hcount⟩
    rw [hval] at hne ⊢
    exact lt_of_le_of_ne hraw (Ne.symm hne)

/-- Witness for C5 at a concrete nonnegative pixel column with a NaN. -/
theorem calc_ps_block_min_count_policy_witness :
    (∀ q ∈ ([some 3, none, some 5] : List Sample).filterMap id, (0 : ℚ) ≤ q) ∧
    (validCount [some 3, none, some 5] < 3 →
      ampDisp [some 3, none, some 5] 3 = 0) ∧
    (psOut [some 3, none, some 5] 3 (1 / 4) →
      0 < ampDisp [some 3, none, some 5] 3 ∧
      ampDisp [some 3, none, some 5] 3 < (((1 / 4 : ℚ) : ℚ) : ℝ) ∧
      3 ≤ validCount [some 3, none, some 5]) :=
  ⟨by decide,
    (calc_ps_block_min_count_policy [some 3, none, some 5] 3 (1 / 4) (by decide)).1,
    (calc_ps_block_min_count_policy [some 3, none, some 5] 3 (1 / 4) (by decide)).2⟩

/-- C6: when the dispersion of a pixel is invalid (exactly 0 after sentinel
replacement), create_ps stores the maximum representable value of the uint8
storage type, 255 = 2 ^ 8 - 1, for that pixel, not a boolean false, so a
negative classification (stored 0) stays distinguishable from missing data. -/
theorem psStored_invalid_is_max (d : ℝ) (p : Prop) (h : d = 0) :
    psStored d p = NODATA_VALUES_ps ∧ NODATA_VALUES_ps = 2 ^ 8 - 1 ∧
    psStored d p ≠ 0 := by
  subst h
  refine ⟨by simp [psStored], by norm_num [NODATA_VALUES_ps], ?_⟩
  simp [psStored, NODATA_VALUES_ps]

/-- Witness for C6 at dispersion 0. -/
theorem psStored_invalid_is_max_witness :
    psStored 0 False = NODATA_VALUES_ps ∧ NODATA_VALUES_ps = 2 ^ 8 - 1 ∧
    psStored 0 False ≠ 0 :=
  psStored_invalid_is_max 0 False rfl

/-- C10: calc_ps_block raises ValueError exactly when the input stack is
complex-valued, before computing anything; on every real-valued input it does
not raise and returns the (mean, dispersion, classification) triple. -/
theorem calc_ps_block_complex_check (b : MagBlock) (t : ℚ) (m : ℕ) :
    (b.isComplexObj = true →
      calc_ps_block b t m =
        Except.error ("The input stack_mag must be real-valued.")) ∧
    (b.isComplexObj = false →
      calc_ps_block b t m =
        Except.ok
          { mean := b.pixels.map meanOut
            ampDispersion := b.pixels.map (fun xs => ampDisp xs m)
            ps := b.pixels.map (fun xs => psOut xs m t) }) := by
  constructor <;> intro h <;> simp [calc_ps_block, h]

/-- Witness for C10 on a complex block and on a real block. -/
theorem calc_ps_block_complex_check_witness :
    calc_ps_block ⟨true, [[some 1]]⟩ (1 / 4) 1 =
      Except.error ("The input stack_mag must be real-valued.") ∧
    calc_ps_block ⟨false, [[some 1]]⟩ (1 / 4) 1 =
      Except.ok
        { mean := [[some 1]].map meanOut
          ampDispersion := [[some 1]].map (fun xs => ampDisp xs 1)
          ps := [[some 1]].map (fun xs => psOut xs 1 (1 / 4)) } :=
  ⟨(calc_ps_block_complex_check ⟨true, [[some 1]]⟩ (1 / 4) 1).1 rfl,
    (calc_ps_block_complex_check ⟨false, [[some 1]]⟩ (1 / 4) 1).2 rfl⟩

/-! ### Theorems: EagerLoader claims (C7, C9) -/

/-- Helper: mapping first components over the stage-2 filterMap keeps exactly
the tiles whose block is not entirely nodata, in order. -/
theorem filterMap_if_map_fst {T U : Type} (p : T → Bool) (r : T → U) :
    ∀ l : List T,
      (l.filterMap (fun t => if p t then none else some (t, r t))).map Prod.fst
        = l.filter (fun t => ! p t)
  | [] => rfl
  | t :: rest => by
    cases h : p t <;>
      simp [h, filterMap_if_map_fst p r rest]

/-- C7: the two-stage skip policy of EagerLoader.iter_blocks.  Stage 1: with
skip_empty enabled and a nodata mask supplied, a tile whose region is entirely
masked invalid is never queued for reading and never yielded.  Stage 2: a tile
whose loaded data is entirely nodata is dropped before being yielded, even
when the mask deemed it valid.  Surviving tiles are yielded in enqueue (FIFO)
order: the yielded tiles form an order-preserving subsequence of the slice
list. -/
theorem iterBlocks_skip_policy {T : Type} (slices : List T) (skipEmpty : Bool)
    (fileNodata : Option Sample) (read : T → List Sample) :
    (∀ (m : T → Bool) (t : T), skipEmpty = true → m t = true →
      t ∉ queuedSlices slices skipEmpty (some m) ∧
      ∀ b, (t, b) ∉ iterBlocks slices skipEmpty (some m) fileNodata read) ∧
    (∀ (maskAll : Option (T → Bool)) (t : T),
      (read t).all (fun x => sampleIsNodata (loaderNodata fileNodata) x) = true →
      ∀ b, (t, b) ∉ iterBlocks slices skipEmpty maskAll fileNodata read) ∧
    (∀ maskAll : Option (T → Bool),
      List.Sublist
        ((iterBlocks slices skipEmpty maskAll fileNodata read).map Prod.fst)
        slices) := by
  refine ⟨?_, ?_, ?_⟩
  · intro m t hskip hm
    have hq : t ∉ queuedSlices slices skipEmpty (some m) := by
      intro hmem
      rcases List.mem_filter.mp hmem with ⟨-, hcond⟩
      simp [hskip, hm] at hcond
    refine ⟨hq, ?_⟩
    intro b hmem
    rcases List.mem_filterMap.mp hmem with ⟨a, ha, hfa⟩
    by_cases hall :
        (read a).all (fun x => sampleIsNodata (loaderNodata fileNodata) x) = true
    · rw [if_pos hall] at hfa
      exact Option.noConfusion hfa
    · rw [if_neg hall] at hfa
      have hat : a = t := congrArg Prod.fst (Option.some.inj hfa)
      rw [hat] at ha
      exact hq ha
  · intro maskAll t hall b hmem
    rcases List.mem_filterMap.mp hmem with ⟨a, ha, hfa⟩
    by_cases h :
        (read a).all (fun x => sampleIsNodata (loaderNodata fileNodata) x) = true
    · rw [if_pos h] at hfa
      exact Option.noConfusion hfa
    · rw [if_neg h] at hfa
      have hat : a = t := congrArg Prod.fst (Option.some.inj hfa)
      rw [hat] at h
      exact h hall
  · intro maskAll
    have h1 := filterMap_if_map_fst
      (fun t => (read t).all (fun x => sampleIsNodata (loaderNodata fileNodata) x))
      read (queuedSlices slices skipEmpty maskAll)
    have h2 : List.Sublist (queuedSlices slices skipEmpty maskAll) slices :=
      List.filter_sublist _
    have h3 :
        (iterBlocks slices skipEmpty maskAll fileNodata read).map Prod.fst =
          (queuedSlices slices skipEmpty maskAll).filter
            (fun t => ! (read t).all
              (fun x => sampleIsNodata (loaderNodata fileNodata) x)) := h1
    rw [h3]
    exact (List.filter_sublist _).trans h2

/-- Witness for C7 on a concrete two-tile loader: tile 0 is fully masked,
tile 1 loads an all-NaN block. -/
theorem iterBlocks_skip_policy_witness :
    ((0 : ℕ) ∉ queuedSlices [0, 1] true (some (fun t => t == 0)) ∧
      ∀ b, ((0 : ℕ), b) ∉ iterBlocks [0, 1] true (some (fun t => t == 0)) none
        (fun t => if t == 0 then [some 1] else [none])) ∧
    (∀ b, ((1 : ℕ), b) ∉ iterBlocks [0, 1] true (some (fun t => t == 0)) none
      (fun t => if t == 0 then [some 1] else [none])) ∧
    List.Sublist
      ((iterBlocks [0, 1] true (some (fun t => t == 0)) none
        (fun t => if t == 0 then [some 1] else [none])).map Prod.fst) [0, 1] :=
  ⟨(iterBlocks_skip_policy [0, 1] true none
      (fun t => if t == 0 then [some 1] else [none])).1 (fun t => t == 0) 0 rfl rfl,
    (iterBlocks_skip_policy [0, 1] true none
      (fun t => if t == 0 then [some 1] else [none])).2.1
      (some (fun t => t == 0)) 1 rfl,
    (iterBlocks_skip_policy [0, 1] true none
      (fun t => if t == 0 then [some 1] else [none])).2.2
      (some (fun t => t == 0))⟩

/-- C9: when the raster metadata carries no nodata value, EagerLoader
substitutes NaN as the nodata value, so the post-read drop stage drops a
queued tile exactly when every loaded sample is NaN; a queued tile whose
nonempty block is free of NaN samples is always yielded. -/
theorem iterBlocks_nan_default {T : Type} (slices : List T) (skipEmpty : Bool)
    (maskAll : Option (T → Bool)) (read : T → List Sample) (t : T)
    (ht : t ∈ queuedSlices slices skipEmpty maskAll) :
    loaderNodata none = none ∧
    ((t, read t) ∈ iterBlocks slices skipEmpty maskAll none read ↔
      ¬ (read t).all Option.isNone = true) ∧
    (read t ≠ [] → (∀ x ∈ read t, x ≠ none) →
      (t, read t) ∈ iterBlocks slices skipEmpty maskAll none read) := by
  have hiff : (t, read t) ∈ iterBlocks slices skipEmpty maskAll none read ↔
      ¬ (read t).all Option.isNone = true := by
    constructor
    · intro hmem hall
      rcases List.mem_filterMap.mp hmem with ⟨a, ha, hfa⟩
      by_cases h :
          (read a).all (fun x => sampleIsNodata (loaderNodata none) x) = true
      · rw [if_pos h] at hfa
        exact Option.noConfusion hfa
      · rw [if_neg h] at hfa
        have hat : a = t := congrArg Prod.fst (Option.some.inj hfa)
        rw [hat] at h
        exact h hall
    · intro hnall
      apply List.mem_filterMap.mpr
      refine ⟨t, ht, ?_⟩
      show (if (read t).all (fun x => sampleIsNodata (loaderNodata none) x)
          then none else some (t, read t)) = some (t, read t)
      exact if_neg hnall
  refine ⟨rfl, hiff, ?_⟩
  intro hne hvalid
  apply hiff.mpr
  intro hall
  cases hr : read t with
  | nil => exact hne hr
  | cons x xs =>
    have hx : x ∈ read t := by
      rw [hr]
      exact List.mem_cons_self x xs
    have hxn := List.all_eq_true.mp hall x hx
    exact hvalid x hx (Option.isNone_iff_eq_none.mp hxn)

/-- Witness for C9 on a concrete one-tile loader with no metadata nodata. -/
theorem iterBlocks_nan_default_witness :
    loaderNodata none = none ∧
    (((5 : ℕ), [some (2 : ℚ)]) ∈ iterBlocks [5] false none none
        (fun _ => [some 2]) ↔
      ¬ ([some (2 : ℚ)] : List Sample).all Option.isNone = true) ∧
    (([some (2 : ℚ)] : List Sample) ≠ [] →
      (∀ x ∈ ([some (2 : ℚ)] : List Sample), x ≠ none) →
      ((5 : ℕ), [some (2 : ℚ)]) ∈ iterBlocks [5] false none none
        (fun _ => [some 2])) :=
  iterBlocks_nan_default [5] false none (fun _ => [some 2]) 5 (by decide)

/-! ### Theorems: sequential ministack claims (C1, C3, C8, C4) -/

/-- Helper: any decomposition of the ministack loop output around one batch
shows that batch effective input to be the accumulated representative list,
then the representatives of the preceding batches in order, then the raw
files of that batch. -/
theorem seqLoop_effInput_decomp {α : Type} (single : List α → SingleResult α)
    (files : List α) (m : ℕ) :
    ∀ (starts : List ℕ) (comps : List α) (pre post : List (BatchRecord α))
      (b : BatchRecord α),
      seqLoop single files m starts comps = pre ++ b :: post →
      b.effInput = comps ++ pre.map (fun r => r.result.compSlc) ++ b.rawFiles := by
  intro starts
  induction starts with
  | nil =>
    intro comps pre post b hb
    simp [seqLoop] at hb
  | cons s rest ih =>
    intro comps pre post b hb
    simp only [seqLoop] at hb
    cases pre with
    | nil =>
      rw [List.nil_append] at hb
      obtain ⟨hrec, -⟩ := List.cons.injEq .. ▸ hb
      rw [← hrec]
      simp
    | cons p pre2 =>
      rw [List.cons_append] at hb
      obtain ⟨hrec, htail⟩ := List.cons.injEq .. ▸ hb
      have hIH := ih (comps ++ [(single (comps ++ (files.drop s).take m)).compSlc])
        pre2 post b htail
      rw [hIH, ← hrec]
      simp [List.append_assoc]

/-- Helper: the effective input of batch i of the ministack loop started with
an empty representative list, stated through List.get. -/
theorem seqLoop_effInput_aux {α : Type} (single : List α → SingleResult α)
    (files : List α) (m : ℕ) (starts : List ℕ) (comps : List α) (i : ℕ)
    (hi : i < (seqLoop single files m starts comps).length) :
    ((seqLoop single files m starts comps).get ⟨i, hi⟩).effInput =
      comps ++
        ((seqLoop single files m starts comps).take i).map
          (fun b => b.result.compSlc) ++
        ((seqLoop single files m starts comps).get ⟨i, hi⟩).rawFiles := by
  apply seqLoop_effInput_decomp single files m starts comps _
    ((seqLoop single files m starts comps).drop (i + 1))
  conv_lhs => rw [← List.take_append_drop i (seqLoop single files m starts comps)]
  congr 1
  rw [List.drop_eq_getElem_cons hi]
  rfl

/-- C3: invariant of the sequential batch loop: each completed ministack
contributes exactly one compressed representative; the representative list is
only appended to, batch by batch; and for every batch i the representatives of
batches 0..i-1 are prepended, in batch order, before the raw files of batch i
in its effective input list. -/
theorem seqLoop_comp_rep_invariant {α : Type} (single : List α → SingleResult α)
    (files : List α) (m : ℕ) (starts : List ℕ) :
    ((seqLoop single files m starts []).map (fun b => b.result.compSlc)).length
        = (seqLoop single files m starts []).length ∧
    ∀ (i : ℕ) (hi : i < (seqLoop single files m starts []).length),
      ((seqLoop single files m starts []).get ⟨i, hi⟩).effInput =
        ((seqLoop single files m starts []).take i).map
          (fun b => b.result.compSlc) ++
        ((seqLoop single files m starts []).get ⟨i, hi⟩).rawFiles := by
  refine ⟨List.length_map _ _, ?_⟩
  intro i hi
  have h := seqLoop_effInput_aux single files m starts [] i hi
  simpa using h

/-- Witness for C3 on a concrete three-file run with ministack size 2. -/
theorem seqLoop_comp_rep_invariant_witness :
    ((seqLoop (fun l => SingleResult.mk [] l.length 0) [10, 20, 30] 2 [0, 2]
        []).map (fun b => b.result.compSlc)).length =
      (seqLoop (fun l => SingleResult.mk [] l.length 0) [10, 20, 30] 2 [0, 2]
        []).length ∧
    ((seqLoop (fun l => SingleResult.mk [] l.length 0) [10, 20, 30] 2 [0, 2]
        []).get ⟨1, by decide⟩).effInput =
      ((seqLoop (fun l => SingleResult.mk [] l.length 0) [10, 20, 30] 2 [0, 2]
        []).take 1).map (fun b => b.result.compSlc) ++
      ((seqLoop (fun l => SingleResult.mk [] l.length 0) [10, 20, 30] 2 [0, 2]
        []).get ⟨1, by decide⟩).rawFiles :=
  ⟨(seqLoop_comp_rep_invariant (fun l => SingleResult.mk [] l.length 0)
      [10, 20, 30] 2 [0, 2]).1,
    (seqLoop_comp_rep_invariant (fun l => SingleResult.mk [] l.length 0)
      [10, 20, 30] 2 [0, 2]).2 1 (by decide)⟩

/-- Counterexample to C1 as stated: for 23 files and ministack_size 10 the
effective input lengths are [10, 11, 5], not [10, 11, 4]: batch 2 receives
its 2 previously produced compressed representatives plus its 3 raw files. -/
theorem seq_23_files_counterexample :
    ministackStarts 23 10 = Except.ok [0, 10, 20] ∧
    (seqLoop (fun l => SingleResult.mk [] l.length 0) (List.range 23) 10
        [0, 10, 20] []).map (fun b => b.effInput.length) = [10, 11, 5] ∧
    ¬ ((seqLoop (fun l => SingleResult.mk [] l.length 0) (List.range 23) 10
        [0, 10, 20] []).map (fun b => b.effInput.length) = [10, 11, 4]) :=
  ⟨rfl, by decide, by decide⟩

/-- C1 (amended): for a time-ordered list of 23 files and ministack_size 10,
run_wrapped_phase_sequential partitions the list into 3 contiguous
chronological batches with raw sizes [10, 10, 3]; the effective input of
batch i is the i previously produced compressed representatives followed by
the raw files of batch i, so the effective input lengths are [10, 11, 5]; and
exactly 3 compressed representatives are produced, in batch order. -/
theorem seq_23_files_batches {α : Type} (single : List α → SingleResult α)
    (average : List α → α) (files : List α) (h : files.length = 23) :
    ministackStarts files.length 10 = Except.ok [0, 10, 20] ∧
    (seqLoop single files 10 [0, 10, 20] []).map (fun b => b.rawFiles.length)
        = [10, 10, 3] ∧
    (seqLoop single files 10 [0, 10, 20] []).map (fun b => b.effInput.length)
        = [10, 11, 5] ∧
    (seqLoop single files 10 [0, 10, 20] []).length = 3 ∧
    (∀ out, run_wrapped_phase_sequential single average files 10 =
        Except.ok out →
      out.2.1 = (seqLoop single files 10 [0, 10, 20] []).map
        (fun b => b.result.compSlc)) := by
  have hs : ministackStarts files.length 10 = Except.ok [0, 10, 20] := by
    rw [h]
    rfl
  have hrun : run_wrapped_phase_sequential single average files 10 =
      Except.ok
        (((seqLoop single files 10 [0, 10, 20] []).map
            (fun b => b.result.outputFiles)).flatten,
          (seqLoop single files 10 [0, 10, 20] []).map
            (fun b => b.result.compSlc),
          average ((seqLoop single files 10 [0, 10, 20] []).map
            (fun b => b.result.tcorr))) := by
    unfold run_wrapped_phase_sequential
    rw [hs]
    rfl
  refine ⟨hs, ?_, ?_, by simp [seqLoop], ?_⟩
  · simp [seqLoop, h]
  · simp [seqLoop, h]
  · intro out hout
    rw [hrun] at hout
    rw [← Except.ok.inj hout]

/-- Witness for C1 (amended) on 23 concrete files. -/
theorem seq_23_files_batches_witness :
    ministackStarts (List.range 23).length 10 = Except.ok [0, 10, 20] ∧
    (seqLoop (fun l => SingleResult.mk [] l.length 0) (List.range 23) 10
        [0, 10, 20] []).map (fun b => b.rawFiles.length) = [10, 10, 3] ∧
    (seqLoop (fun l => SingleResult.mk [] l.length 0) (List.range 23) 10
        [0, 10, 20] []).map (fun b => b.effInput.length) = [10, 11, 5] ∧
    (seqLoop (fun l => SingleResult.mk [] l.length 0) (List.range 23) 10
        [0, 10, 20] []).length = 3 ∧
    (∀ out, run_wrapped_phase_sequential (fun l => SingleResult.mk [] l.length 0)
        (fun _ => 0) (List.range 23) 10 = Except.ok out →
      out.2.1 = (seqLoop (fun l => SingleResult.mk [] l.length 0) (List.range 23)
        10 [0, 10, 20] []).map (fun b => b.result.compSlc)) :=
  seq_23_files_batches (fun l => SingleResult.mk [] l.length 0) (fun _ => 0)
    (List.range 23) (by rfl)

/-- Helper: reduction of the sequential run once the partition result is
known. -/
theorem run_eq_ok {α : Type} (single : List α → SingleResult α)
    (average : List α → α) (files : List α) (m : ℤ) (starts : List ℕ)
    (hs : ministackStarts files.length m = Except.ok starts) :
    run_wrapped_phase_sequential single average files m =
      match finalTcorr average ((seqLoop single files m.toNat starts []).map
          (fun b => b.result.tcorr)) with
      | Except.error e => Except.error e
      | Except.ok outTcorr =>
        Except.ok (((seqLoop single files m.toNat starts []).map
            (fun b => b.result.outputFiles)).flatten,
          (seqLoop single files m.toNat starts []).map
            (fun b => b.result.compSlc), outTcorr) := by
  unfold run_wrapped_phase_sequential
  rw [hs]

/-- Counterexample to C8 as stated: ministack_size = -1 passes the partition
step without any error (the start list is just empty), so no configuration
error is raised before the batch phase; the run instead fails with IndexError
at the final coherence-combination step. -/
theorem seq_negative_ministack_counterexample :
    ministackStarts 1 (-1) = Except.ok [] ∧
    run_wrapped_phase_sequential (fun _ => SingleResult.mk ([] : List ℕ) 0 0)
      (fun _ => 0) [0] (-1) = Except.error PyError.indexError :=
  ⟨rfl, rfl⟩

/-- C8 (amended): a non-positive ministack_size always makes the run fail with
zero batches processed, but only ministack_size = 0 is rejected at the
partition step, with the builtin ValueError of Python range; a negative
ministack_size passes the partition with an empty start list, so the batch
loop runs zero times and the run fails afterwards with IndexError when the
first element of the empty temporal-coherence list is taken. -/
theorem seq_nonpositive_ministack_size {α : Type}
    (single : List α → SingleResult α) (average : List α → α) (files : List α)
    (m : ℤ) (hm : m ≤ 0) :
    (∃ e, run_wrapped_phase_sequential single average files m = Except.error e) ∧
    (m = 0 →
      ministackStarts files.length m =
        Except.error (PyError.valueError ("range arg 3 must not be zero")) ∧
      run_wrapped_phase_sequential single average files m =
        Except.error (PyError.valueError ("range arg 3 must not be zero"))) ∧
    (m < 0 →
      ministackStarts files.length m = Except.ok [] ∧
      seqLoop single files m.toNat [] [] = [] ∧
      run_wrapped_phase_sequential single average files m =
        Except.error PyError.indexError) := by
  have h0 : m = 0 →
      ministackStarts files.length m =
        Except.error (PyError.valueError ("range arg 3 must not be zero")) ∧
      run_wrapped_phase_sequential single average files m =
        Except.error (PyError.valueError ("range arg 3 must not be zero")) := by
    intro h
    subst h
    exact ⟨rfl, rfl⟩
  have hneg : m < 0 →
      ministackStarts files.length m = Except.ok [] ∧
      seqLoop single files m.toNat [] [] = [] ∧
      run_wrapped_phase_sequential single average files m =
        Except.error PyError.indexError := by
    intro h
    have hne : ¬ m = 0 := by omega
    have hstarts : ministackStarts files.length m = Except.ok [] := by
      unfold ministackStarts
      rw [if_neg hne, if_pos h]
    refine ⟨hstarts, rfl, ?_⟩
    rw [run_eq_ok single average files m [] hstarts]
    rfl
  refine ⟨?_, h0, hneg⟩
  rcases lt_or_eq_of_le hm with h | h
  · exact ⟨_, (hneg h).2.2⟩
  · exact ⟨_, (h0 h).2⟩

/-- Witness for C8 (amended) at ministack_size = -1 on one file. -/
theorem seq_nonpositive_ministack_size_witness :
    (∃ e, run_wrapped_phase_sequential (fun _ => SingleResult.mk ([] : List ℕ) 0 0)
        (fun _ => 0) [3] (-1) = Except.error e) ∧
    ((-1 : ℤ) = 0 →
      ministackStarts [3].length (-1) =
        Except.error (PyError.valueError ("range arg 3 must not be zero")) ∧
      run_wrapped_phase_sequential (fun _ => SingleResult.mk ([] : List ℕ) 0 0)
        (fun _ => 0) [3] (-1) =
        Except.error (PyError.valueError ("range arg 3 must not be zero"))) ∧
    ((-1 : ℤ) < 0 →
      ministackStarts [3].length (-1) = Except.ok [] ∧
      seqLoop (fun _ => SingleResult.mk ([] : List ℕ) 0 0) [3]
        (Int.toNat (-1)) [] [] = [] ∧
      run_wrapped_phase_sequential (fun _ => SingleResult.mk ([] : List ℕ) 0 0)
        (fun _ => 0) [3] (-1) = Except.error PyError.indexError) :=
  seq_nonpositive_ministack_size (fun _ => SingleResult.mk ([] : List ℕ) 0 0)
    (fun _ => 0) [3] (-1) (by decide)

/-- C4: after all batches complete, when exactly one batch ran the final
temporal-coherence raster is that batch raster itself, taken directly without
recomputation; when more than one batch ran the final raster is the gdal_calc
per-pixel nanmean of the batch rasters, in which every pixel averages the
valid (non-NaN) samples only, so missing values are excluded from the average
rather than averaged in as zeros. -/
theorem seq_tcorr_combination {α : Type} (single : List α → SingleResult α)
    (average : List α → α) (files : List α) (m : ℤ) (starts : List ℕ)
    (hs : ministackStarts files.length m = Except.ok starts) :
    (∀ b, seqLoop single files m.toNat starts [] = [b] →
      run_wrapped_phase_sequential single average files m =
        Except.ok (b.result.outputFiles, [b.result.compSlc], b.result.tcorr)) ∧
    (1 < (seqLoop single files m.toNat starts []).length →
      run_wrapped_phase_sequential single average files m =
        Except.ok
          (((seqLoop single files m.toNat starts []).map
              (fun b => b.result.outputFiles)).flatten,
            (seqLoop single files m.toNat starts []).map
              (fun b => b.result.compSlc),
            average ((seqLoop single files m.toNat starts []).map
              (fun b => b.result.tcorr)))) ∧
    (∀ (rasters : List (List Sample)) (j : ℕ), j < (rasters.headD []).length →
      (gdal_calc_nanmean rasters).getD j none =
        (if validCount (rasters.map (fun r => r.getD j none)) = 0 then none
         else some (nansum (rasters.map (fun r => r.getD j none)) /
           (validCount (rasters.map (fun r => r.getD j none)) : ℚ)))) := by
  refine ⟨?_, ?_, ?_⟩
  · intro b hb
    rw [run_eq_ok single average files m starts hs, hb]
    simp [finalTcorr]
  · intro hlen
    rw [run_eq_ok single average files m starts hs]
    simp [finalTcorr, hlen]
  · intro rasters j hj
    unfold gdal_calc_nanmean
    rw [List.getD_eq_getElem?_getD, List.getElem?_map, List.getElem?_range hj]
    simp [nanmean]

/-- Witness for C4: a single-batch run returns its sole coherence raster
directly, a two-batch run returns the average of both, and gdal_calc_nanmean
at a concrete pixel averages only the valid samples. -/
theorem seq_tcorr_combination_witness :
    run_wrapped_phase_sequential (fun _ => SingleResult.mk ([] : List ℕ) 9 3)
      (fun _ => 0) [7] 5 = Except.ok ([], [9], 3) ∧
    run_wrapped_phase_sequential (fun _ => SingleResult.mk ([] : List ℕ) 9 3)
      (fun _ => 0) [7, 8] 1 = Except.ok ([], [9, 9], 0) ∧
    (gdal_calc_nanmean [[some 1, none], [some 3, some 5]]).getD 0 none =
      (if validCount ([[some (1 : ℚ), none], [some 3, some 5]].map
          (fun r => r.getD 0 none)) = 0 then none
       else some (nansum ([[some (1 : ℚ), none], [some 3, some 5]].map
           (fun r => r.getD 0 none)) /
         (validCount ([[some (1 : ℚ), none], [some 3, some 5]].map
           (fun r => r.getD 0 none)) : ℚ))) :=
  ⟨(seq_tcorr_combination (fun _ => SingleResult.mk ([] : List ℕ) 9 3)
      (fun _ => 0) [7] 5 [0] rfl).1 ⟨[7], [7], SingleResult.mk [] 9 3⟩ rfl,
    (seq_tcorr_combination (fun _ => SingleResult.mk ([] : List ℕ) 9 3)
      (fun _ => 0) [7, 8] 1 [0, 1] rfl).2.1 (by decide),
    (seq_tcorr_combination (fun _ => SingleResult.mk ([] : List ℕ) 9 3)
      (fun _ => 0) [7] 5 [0] rfl).2.2 [[some 1, none], [some 3, some 5]] 0
      (by decide)⟩

/-! ### Theorems: block planner claim (C2) -/

/-- Helper: the planner loop never grows a block beyond the raster shape. -/
theorem incGo_le_shape (maxBytes : ℚ) (cs shape : ℕ × ℕ) (nstack bpp : ℕ) :
    ∀ (fuel : ℕ) (nc cur : ℕ × ℕ) (idx : ℕ),
      cur.1 ≤ shape.1 → cur.2 ≤ shape.2 →
      (incGo maxBytes cs shape nstack bpp fuel nc cur idx).1 ≤ shape.1 ∧
      (incGo maxBytes cs shape nstack bpp fuel nc cur idx).2 ≤ shape.2 := by
  intro fuel
  induction fuel with
  | zero =>
    intro nc cur idx h1 h2
    exact ⟨h1, h2⟩
  | succ f ih =>
    intro nc cur idx h1 h2
    simp only [incGo]
    by_cases hcond :
        1 < maxBytes / ((memBytes nstack bpp cur : ℕ) : ℚ) ∧ cur ≠ shape
    · rw [if_pos hcond]
      by_cases hidx : idx % 2 = 1
      · rw [if_pos hidx]
        exact ih _ _ _ h1 (Nat.min_le_right _ _)
      · rw [if_neg hidx]
        exact ih _ _ _ (Nat.min_le_right _ _) h2
    · rw [if_neg hcond]
      exact ⟨h1, h2⟩

/-- Helper: the planner loop exits immediately once the budget test fails or
the block equals the full shape. -/
theorem incGo_exit (maxBytes : ℚ) (cs shape : ℕ × ℕ) (nstack bpp : ℕ)
    (fuel : ℕ) (nc cur : ℕ × ℕ) (idx : ℕ)
    (h : ¬ (1 < maxBytes / ((memBytes nstack bpp cur : ℕ) : ℚ) ∧ cur ≠ shape)) :
    incGo maxBytes cs shape nstack bpp fuel nc cur idx = cur := by
  cases fuel with
  | zero => rfl
  | succ f =>
    simp only [incGo]
    rw [if_neg h]

/-- Helper: every step of the planner loop at most doubles the estimated tile
memory, and only runs while the memory is strictly under the budget, so the
result stays under twice the budget. -/
theorem incGo_mem_bound (maxBytes : ℚ) (cs shape : ℕ × ℕ) (nstack bpp : ℕ) :
    ∀ (fuel : ℕ) (nc cur : ℕ × ℕ) (idx : ℕ),
      1 ≤ nc.1 → 1 ≤ nc.2 →
      cur.1 = min (max (nc.1 - 1) 1 * cs.1) shape.1 →
      cur.2 = min (max (nc.2 - 1) 1 * cs.2) shape.2 →
      ((memBytes nstack bpp cur : ℕ) : ℚ) < 2 * maxBytes →
      ((memBytes nstack bpp
          (incGo maxBytes cs shape nstack bpp fuel nc cur idx) : ℕ) : ℚ) <
        2 * maxBytes := by
  intro fuel
  induction fuel with
  | zero =>
    intro nc cur idx _ _ _ _ hmem
    exact hmem
  | succ f ih =>
    intro nc cur idx hn1 hn2 hc1 hc2 hmem
    simp only [incGo]
    by_cases hcond :
        1 < maxBytes / ((memBytes nstack bpp cur : ℕ) : ℚ) ∧ cur ≠ shape
    · rw [if_pos hcond]
      have hmpos : 0 < memBytes nstack bpp cur := by
        by_contra h0
        have hz : memBytes nstack bpp cur = 0 := by omega
        rw [hz] at hcond
        norm_num at hcond
      have hqpos : (0 : ℚ) < ((memBytes nstack bpp cur : ℕ) : ℚ) := by
        exact_mod_cast hmpos
      have hlt : ((memBytes nstack bpp cur : ℕ) : ℚ) < maxBytes :=
        (one_lt_div hqpos).mp hcond.1
      by_cases hidx : idx % 2 = 1
      · rw [if_pos hidx]
        apply ih (nc.1, nc.2 + 1) (cur.1, min (nc.2 * cs.2) shape.2) (idx + 1)
          hn1 (by omega) (by simpa using hc1)
          (by simp [Nat.max_eq_left hn2])
        have hdouble : min (nc.2 * cs.2) shape.2 ≤ 2 * cur.2 := by
          rw [hc2]
          have hmul : nc.2 * cs.2 ≤ 2 * (max (nc.2 - 1) 1 * cs.2) := by
            have h2 : nc.2 ≤ 2 * max (nc.2 - 1) 1 := by omega
            calc nc.2 * cs.2 ≤ 2 * max (nc.2 - 1) 1 * cs.2 :=
                  Nat.mul_le_mul_right _ h2
              _ = 2 * (max (nc.2 - 1) 1 * cs.2) := by ring
          omega
        have hmemle :
            memBytes nstack bpp (cur.1, min (nc.2 * cs.2) shape.2) ≤
              2 * memBytes nstack bpp cur := by
          unfold memBytes
          calc nstack * (cur.1 * min (nc.2 * cs.2) shape.2) * bpp ≤
                nstack * (cur.1 * (2 * cur.2)) * bpp := by gcongr
            _ = 2 * (nstack * (cur.1 * cur.2) * bpp) := by ring
        calc ((memBytes nstack bpp
                (cur.1, min (nc.2 * cs.2) shape.2) : ℕ) : ℚ) ≤
              ((2 * memBytes nstack bpp cur : ℕ) : ℚ) := by exact_mod_cast hmemle
          _ = 2 * ((memBytes nstack bpp cur : ℕ) : ℚ) := by push_cast; ring
          _ < 2 * maxBytes := by linarith
      · rw [if_neg hidx]
        apply ih (nc.1 + 1, nc.2) (min (nc.1 * cs.1) shape.1, cur.2) (idx + 1)
          (by omega) hn2 (by simp [Nat.max_eq_left hn1])
          (by simpa using hc2)
        have hdouble : min (nc.1 * cs.1) shape.1 ≤ 2 * cur.1 := by
          rw [hc1]
          have hmul : nc.1 * cs.1 ≤ 2 * (max (nc.1 - 1) 1 * cs.1) := by
            have h2 : nc.1 ≤ 2 * max (nc.1 - 1) 1 := by omega
            calc nc.1 * cs.1 ≤ 2 * max (nc.1 - 1) 1 * cs.1 :=
                  Nat.mul_le_mul_right _ h2
              _ = 2 * (max (nc.1 - 1) 1 * cs.1) := by ring
          omega
        have hmemle :
            memBytes nstack bpp (min (nc.1 * cs.1) shape.1, cur.2) ≤
              2 * memBytes nstack bpp cur := by
          unfold memBytes
          calc nstack * (min (nc.1 * cs.1) shape.1 * cur.2) * bpp ≤
                nstack * (2 * cur.1 * cur.2) * bpp := by gcongr
            _ = 2 * (nstack * (cur.1 * cur.2) * bpp) := by ring
        calc ((memBytes nstack bpp
                (min (nc.1 * cs.1) shape.1, cur.2) : ℕ) : ℚ) ≤
              ((2 * memBytes nstack bpp cur : ℕ) : ℚ) := by exact_mod_cast hmemle
          _ = 2 * ((memBytes nstack bpp cur : ℕ) : ℚ) := by push_cast; ring
          _ < 2 * maxBytes := by linarith
    · rw [if_neg hcond]
      exact hmem

/-- Helper: one column-growing step of the planner loop. -/
theorem incGo_step_col (maxBytes : ℚ) (cs shape : ℕ × ℕ) (nstack bpp : ℕ)
    (fuel : ℕ) (nc cur : ℕ × ℕ) (idx : ℕ)
    (h1 : 1 < maxBytes / ((memBytes nstack bpp cur : ℕ) : ℚ))
    (h2 : cur ≠ shape) (hidx : idx % 2 = 1) :
    incGo maxBytes cs shape nstack bpp (fuel + 1) nc cur idx =
      incGo maxBytes cs shape nstack bpp fuel (nc.1, nc.2 + 1)
        (cur.1, min (nc.2 * cs.2) shape.2) (idx + 1) := by
  simp only [incGo]
  rw [if_pos ⟨h1, h2⟩, if_pos hidx]

/-- Helper: one row-growing step of the planner loop. -/
theorem incGo_step_row (maxBytes : ℚ) (cs shape : ℕ × ℕ) (nstack bpp : ℕ)
    (fuel : ℕ) (nc cur : ℕ × ℕ) (idx : ℕ)
    (h1 : 1 < maxBytes / ((memBytes nstack bpp cur : ℕ) : ℚ))
    (h2 : cur ≠ shape) (hidx : ¬ idx % 2 = 1) :
    incGo maxBytes cs shape nstack bpp (fuel + 1) nc cur idx =
      incGo maxBytes cs shape nstack bpp fuel (nc.1 + 1, nc.2)
        (min (nc.1 * cs.1) shape.1, cur.2) (idx + 1) := by
  simp only [incGo]
  rw [if_pos ⟨h1, h2⟩, if_neg hidx]

/-- Counterexample to C2 as stated: chunk (16, 16), raster 100 x 100, one
layer of one byte per pixel, budget 384 bytes.  A single native chunk needs
only 256 bytes, well within the budget, yet the planner returns (16, 32),
whose estimated tile memory of 512 bytes exceeds the budget: the loop tests
the budget before growing, so its final increment can overshoot. -/
theorem get_max_block_shape_counterexample :
    get_max_block_shape (16, 16) 100 100 1 1 384 = (16, 32) ∧
    ((memBytes 1 1 (clipChunk (16, 16) 100 100) : ℕ) : ℚ) < 384 ∧
    ¬ (((memBytes 1 1 (get_max_block_shape (16, 16) 100 100 1 1 384) : ℕ) : ℚ)
        ≤ 384) := by
  have h1 : get_max_block_shape (16, 16) 100 100 1 1 384 = (16, 32) := by
    show incGo 384 (16, 16) (100, 100) 1 1 (403 + 1) (1, 1) (16, 16) 1 = (16, 32)
    rw [incGo_step_col 384 (16, 16) (100, 100) 1 1 403 (1, 1) (16, 16) 1
      (by norm_num [memBytes]) (by decide) (by norm_num)]
    show incGo 384 (16, 16) (100, 100) 1 1 (402 + 1) (1, 2) (16, 16) 2 = (16, 32)
    rw [incGo_step_row 384 (16, 16) (100, 100) 1 1 402 (1, 2) (16, 16) 2
      (by norm_num [memBytes]) (by decide) (by norm_num)]
    show incGo 384 (16, 16) (100, 100) 1 1 (401 + 1) (2, 2) (16, 16) 3 = (16, 32)
    rw [incGo_step_col 384 (16, 16) (100, 100) 1 1 401 (2, 2) (16, 16) 3
      (by norm_num [memBytes]) (by decide) (by norm_num)]
    show incGo 384 (16, 16) (100, 100) 1 1 401 (2, 3) (16, 32) 4 = (16, 32)
    apply incGo_exit
    rintro ⟨hgt, -⟩
    norm_num [memBytes] at hgt
  refine ⟨h1, by decide, ?_⟩
  rw [h1]
  norm_num [memBytes]

/-- C2 (amended): for every raster shape (at least 1 x 1), native chunk size,
layer count and bytes-per-pixel (each at least 1), and memory budget, the
planner result never exceeds the raster shape in either dimension; when the
single clipped native chunk fits strictly within the budget, the estimated
tile memory of the result stays below twice the budget (the final increment
of the loop may overshoot the budget, but never by a factor of two); and when
a single clipped native chunk alone meets or exceeds the budget, that chunk
shape is returned unmodified, not treated as an error. -/
theorem get_max_block_shape_bounds (rawChunk : ℕ × ℕ)
    (ysize xsize nstack bpp : ℕ) (maxBytes : ℚ) (hy : 1 ≤ ysize)
    (hx : 1 ≤ xsize) (hn : 1 ≤ nstack) (hb : 1 ≤ bpp) :
    (get_max_block_shape rawChunk ysize xsize nstack bpp maxBytes).1 ≤ ysize ∧
    (get_max_block_shape rawChunk ysize xsize nstack bpp maxBytes).2 ≤ xsize ∧
    (((memBytes nstack bpp (clipChunk rawChunk ysize xsize) : ℕ) : ℚ) < maxBytes →
      ((memBytes nstack bpp
          (get_max_block_shape rawChunk ysize xsize nstack bpp maxBytes) : ℕ) : ℚ)
        < 2 * maxBytes) ∧
    (maxBytes ≤ ((memBytes nstack bpp (clipChunk rawChunk ysize xsize) : ℕ) : ℚ) →
      get_max_block_shape rawChunk ysize xsize nstack bpp maxBytes =
        clipChunk rawChunk ysize xsize) := by
  have hcs1 : (clipChunk rawChunk ysize xsize).1 ≤ ysize := Nat.min_le_right _ _
  have hcs2 : (clipChunk rawChunk ysize xsize).2 ≤ xsize := Nat.min_le_right _ _
  have hcp1 : 0 < (clipChunk rawChunk ysize xsize).1 := by
    simp only [clipChunk]
    omega
  have hcp2 : 0 < (clipChunk rawChunk ysize xsize).2 := by
    simp only [clipChunk]
    omega
  have hshape := incGo_le_shape maxBytes (clipChunk rawChunk ysize xsize)
    (ysize, xsize) nstack bpp (2 * ((ysize, xsize).1 + (ysize, xsize).2) + 4)
    (1, 1) (clipChunk rawChunk ysize xsize) 1 hcs1 hcs2
  refine ⟨hshape.1, hshape.2, ?_, ?_⟩
  · intro hfit
    have h0 : (0 : ℚ) ≤
        ((memBytes nstack bpp (clipChunk rawChunk ysize xsize) : ℕ) : ℚ) := by
      positivity
    have hinit : ((memBytes nstack bpp (clipChunk rawChunk ysize xsize) : ℕ) : ℚ)
        < 2 * maxBytes := by linarith
    have hc1 : (clipChunk rawChunk ysize xsize).1 =
        min (max (1 - 1) 1 * (clipChunk rawChunk ysize xsize).1)
          (ysize, xsize).1 := by
      simp [Nat.min_eq_left hcs1]
    have hc2 : (clipChunk rawChunk ysize xsize).2 =
        min (max (1 - 1) 1 * (clipChunk rawChunk ysize xsize).2)
          (ysize, xsize).2 := by
      simp [Nat.min_eq_left hcs2]
    exact incGo_mem_bound maxBytes (clipChunk rawChunk ysize xsize)
      (ysize, xsize) nstack bpp (2 * ((ysize, xsize).1 + (ysize, xsize).2) + 4)
      (1, 1) (clipChunk rawChunk ysize xsize) 1 le_rfl le_rfl hc1 hc2 hinit
  · intro hge
    have hmpos : 0 < memBytes nstack bpp (clipChunk rawChunk ysize xsize) :=
      Nat.mul_pos (Nat.mul_pos hn (Nat.mul_pos hcp1 hcp2)) hb
    have hq : (0 : ℚ) <
        ((memBytes nstack bpp (clipChunk rawChunk ysize xsize) : ℕ) : ℚ) := by
      exact_mod_cast hmpos
    have hdiv : maxBytes /
        ((memBytes nstack bpp (clipChunk rawChunk ysize xsize) : ℕ) : ℚ) ≤ 1 :=
      (div_le_one hq).mpr hge
    unfold get_max_block_shape incrementUntilMax
    apply incGo_exit
    rintro ⟨hgt, -⟩
    linarith

/-- Witness for C2 (amended) at chunk (16, 16), raster 100 x 100, one layer
of one byte per pixel, budget 300 bytes. -/
theorem get_max_block_shape_bounds_witness :
    (get_max_block_shape (16, 16) 100 100 1 1 300).1 ≤ 100 ∧
    (get_max_block_shape (16, 16) 100 100 1 1 300).2 ≤ 100 ∧
    (((memBytes 1 1 (clipChunk (16, 16) 100 100) : ℕ) : ℚ) < 300 →
      ((memBytes 1 1 (get_max_block_shape (16, 16) 100 100 1 1 300) : ℕ) : ℚ)
        < 2 * 300) ∧
    ((300 : ℚ) ≤ ((memBytes 1 1 (clipChunk (16, 16) 100 100) : ℕ) : ℚ) →
      get_max_block_shape (16, 16) 100 100 1 1 300 =
        clipChunk (16, 16) 100 100) :=
  get_max_block_shape_bounds (16, 16) 100 100 1 1 300 (by norm_num)
    (by norm_num) (by norm_num) (by norm_num)

end Dolphin
